import Mathlib

/-!
Verification development for pyms (src/pyms.py), a terminal music player.

The Python source is shallowly embedded below.  Python strings are Lean
strings manipulated through their character lists (Python slicing, center,
ljust, rjust, endswith are reproduced as py* helpers, including the CPython
center padding formula).  Python ints are ℤ (or ℕ where the source value is
a count), Python floats are ℚ; the single place where the binary64
representation of a float is observable to the claims (the volume
percentage computation in song_info_parser) is modelled with an explicit
IEEE-754 round-to-nearest-even function, roundDouble.  Python operations
that can raise an exception are embedded as Option-returning functions
(none = the exception propagates).  The external collaborators (pygame
mixer, the file system listing, random.choice, terminal size) enter as
explicit parameters or as an event trace, as described at each definition.
-/

/-- Python int(q) truncates a float toward zero. -/
def pyInt (q : ℚ) : ℤ := if q < 0 then ⌈q⌉ else ⌊q⌋

/-- Round to the nearest integer, ties to the even integer.  This is the
rounding used both by IEEE-754 round-to-nearest-even (on scaled
significands) and by Python round. -/
def roundHalfEvenZ (q : ℚ) : ℤ :=
  let f := ⌊q⌋
  let r := q - f
  if r < 1/2 then f
  else if 1/2 < r then f + 1
  else if f % 2 = 0 then f else f + 1

/-- Python round(x, n) on exact decimal arithmetic: the nearest multiple of
10^(-n), ties to even. -/
def pyRoundTo (q : ℚ) (n : ℕ) : ℚ := (roundHalfEvenZ (q * 10 ^ n) : ℚ) / 10 ^ n

/-- The IEEE-754 binary64 value nearest to the rational q (round to nearest,
ties to even), for q in the normal range of doubles: the significand of q is
scaled to 53 bits, rounded half-to-even, and rescaled.  This is the value a
Python float literal or arithmetic result denotes. -/
def roundDouble (q : ℚ) : ℚ :=
  if q = 0 then 0
  else
    let s : ℚ := if q < 0 then -1 else 1
    let a := |q|
    let e := Int.log 2 a
    s * (roundHalfEvenZ (a * 2 ^ ((52:ℤ) - e)) : ℚ) * 2 ^ (e - 52)

/-- Python float multiplication: exact product, rounded to binary64. -/
def floatMul (a b : ℚ) : ℚ := roundDouble (a * b)

/-- Python s[:n] for a nonnegative index n. -/
def pyTake (s : String) (n : ℕ) : String := String.mk (s.data.take n)

/-- Python s[n:] for a nonnegative index n. -/
def pyDrop (s : String) (n : ℕ) : String := String.mk (s.data.drop n)

/-- Python s[:k] for a possibly negative k (a negative k counts from the
end; a k below -len(s) yields the empty string). -/
def pySliceTo (s : String) (k : ℤ) : String :=
  pyTake s (if 0 ≤ k then k.toNat else ((s.length : ℤ) + k).toNat)

/-- Python "c" * n (n copies of one character; n ≤ 0 gives ""). -/
def pyRepeatChar (c : Char) (n : ℕ) : String := String.mk (List.replicate n c)

/-- Python s.center(width), with the exact CPython padding split:
left margin = marg // 2 + (marg & width & 1). -/
def pyCenter (s : String) (width : ℕ) : String :=
  if width ≤ s.length then s
  else
    let marg := width - s.length
    let left := marg / 2 + (marg &&& width &&& 1)
    pyRepeatChar ' ' left ++ s ++ pyRepeatChar ' ' (marg - left)

/-- Python s.ljust(width). -/
def pyLjust (s : String) (width : ℕ) : String :=
  if width ≤ s.length then s else s ++ pyRepeatChar ' ' (width - s.length)

/-- Python s.rjust(width); a width at or below len(s) (also a negative
width) returns s unchanged. -/
def pyRjust (s : String) (width : ℤ) : String :=
  if (s.length : ℤ) < width then pyRepeatChar ' ' (width - s.length).toNat ++ s else s

/-- Python s.endswith(t). -/
def pyEndsWith (s t : String) : Bool := decide (t.data <:+ s.data)

/-- Python s.startswith(t). -/
def pyStartsWith (s t : String) : Bool := decide (t.data <+: s.data)

/-- Python (c in s) for a single character c. -/
def pyContains (s : String) (c : Char) : Bool := s.data.contains c

/-- Python os.path.join(a, b) for POSIX paths: an absolute b wins; otherwise
a separator is inserted unless a is empty or already ends with one. -/
def pyJoin (a b : String) : String :=
  if pyStartsWith b "/" then b
  else if a = "" || pyEndsWith a "/" then a ++ b
  else a ++ "/" ++ b

/-- Number of newline characters at the start of a string. -/
def countLeadingNL (s : String) : ℕ := (s.data.takeWhile (fun c => c == '\n')).length

/-- pyms.py line 22: the fixed panel width. -/
def box_width : ℕ := 46

/-- pyms.py line 210 (local variable term in interface): the ellipsis
marker used when truncating a line. -/
def term : String := "..."

/-- pyms.py lines 39-45: the three rows of the play glyph and of the pause
glyph (each 6 characters, spliced into columns 10..16). -/
def play1 : String := "██▄▄  "

/-- Second row of the play glyph. -/
def play2 : String := "██████"

/-- Third row of the play glyph. -/
def play3 : String := "██▀▀  "

/-- First row of the pause glyph. -/
def paus1 : String := "██  ██"

/-- Second row of the pause glyph. -/
def paus2 : String := "██  ██"

/-- Third row of the pause glyph. -/
def paus3 : String := "██  ██"

/-- pyms.py lines 26-37: the initial interface lines (text, centered).
main() later prepends a title line, moving the glyph rows to slots 6-8. -/
def i_lines : List (String × Bool) := [
  ("", true),
  (pyRepeatChar '░' box_width, true),
  ("", true),
  ("00:00 " ++ pyRepeatChar ' ' (box_width - 12) ++ " 00:00", true),
  ("", true),
  ("██████    ██  ██                ██      █ ████", true),
  ("██████    ██  ██    ██████    ██████      ██  ", true),
  ("██████    ██  ██                ██      ████ █", true),
  ("", true),
  ("escape    pause       F8        F9      pg_dwn", true)
]

/-- pyms.py lines 124-137: basename of a path (the part after the last
slash; the whole path when it has no slash). -/
def strip_path_from_filename (path : String) : String :=
  if pyContains path '/' then (path.splitOn "/").getLastD "" else path

/-- pyms.py lines 140-155: directory of a path, with a trailing slash; a
path without a slash yields the current working directory (os.getcwd(),
passed in as cwd). -/
def strip_filename_from_path (cwd path : String) : String :=
  if pyContains path '/'
  then String.intercalate "/" ((path.splitOn "/").dropLast) ++ "/"
  else cwd

/-- pyms.py lines 172-179 (loop inside random_file): the directory entries
whose name ends in one of the three allow-listed audio extensions and
differs from the current basename. -/
def musicFiles (files : List String) (old_filename : String) : List String :=
  files.filter (fun file =>
    (pyEndsWith file ".mp3" || pyEndsWith file ".wav" || pyEndsWith file ".ogg")
      && file != old_filename)

/-- pyms.py lines 158-188: pick a random sibling audio file.  The directory
listing (os.listdir) and the working directory enter as parameters; the
process-wide random source enters as the index pick (random.choice takes
the entry at a uniformly random valid index).  random.choice raises
IndexError on an empty list, which the source catches and converts to
pygame.error ("No music files found in the directory."); that error outcome
is none here. -/
def random_file (cwd : String) (files : List String) (path : String) (pick : ℕ) : Option String :=
  let old_filename := strip_path_from_filename path
  let stripped_path := strip_filename_from_path cwd path
  let music_files := musicFiles files old_filename
  if h : music_files.length = 0 then none
  else some (pyJoin stripped_path
    (music_files.get ⟨pick % music_files.length, Nat.mod_lt _ (Nat.pos_of_ne_zero h)⟩))

/-- The terminal dimensions returned by os.get_terminal_size(). -/
structure TerminalFrame where
  columns : ℕ
  lines : ℕ

/-- pyms.py lines 217-219: shorten a line when it is longer than
min(box_width, width), cutting to min(box_width, width) - len(term) and
appending the ellipsis marker. -/
def truncLine (line : String) (width : ℕ) : String :=
  if min box_width width < line.length
  then pySliceTo line ((min box_width width : ℤ) - (term.length : ℤ)) ++ term
  else line

/-- pyms.py lines 213-231 (loop body of interface): truncate, center or
left-justify to min(box_width, width), then center in the full width. -/
def fmtLine (tupl : String × Bool) (width : ℕ) : String :=
  let line := truncLine tupl.1 width
  let formatted_line :=
    if tupl.2 then pyCenter line (min box_width width) else pyLjust line (min box_width width)
  pyCenter formatted_line width

/-- The body lines of the interface output, one per input tuple. -/
def bodyLines (lines : List (String × Bool)) (frame : TerminalFrame) : List String :=
  lines.map (fun tupl => fmtLine tupl frame.columns)

/-- pyms.py lines 191-233: the full interface string: int(height/2) -
int(len(lines)/2) leading newlines (Python repeats a string zero times for
a nonpositive count), then each formatted body line followed by a
newline. -/
def interface (lines : List (String × Bool)) (frame : TerminalFrame) : String :=
  pyRepeatChar '\n' (((frame.lines / 2 : ℕ) : ℤ) - ((lines.length / 2 : ℕ) : ℤ)).toNat ++
    String.join ((bodyLines lines frame).map (fun l => l ++ "\n"))

/-- pyms.py lines 236-248 (the source function bar_parser):
int(percentage * max_width) filled blocks, then empty blocks up to
max_width (Python string repetition is empty for a negative count).  The
multiplication percentage * max_width happens on Python floats, so it is
modelled with floatMul: the exact product rounded to binary64. -/
def barParser (percentage : ℚ) (max_width : ℕ) : String :=
  let bar_width : ℤ := pyInt (floatMul percentage max_width)
  pyRepeatChar '█' bar_width.toNat ++ pyRepeatChar '░' ((max_width : ℤ) - bar_width).toNat

/-- Python "{:02d}".format(n) for a nonnegative n. -/
def fmt02 (n : ℕ) : String := if n < 10 then "0" ++ toString n else toString n

/-- pyms.py lines 268-269 (inside song_info_parser): the displayed volume
percentage: int(volume * 100), bumped by one when its last digit is 9.  The
multiplication volume * 100 happens on Python floats, so it is modelled
with floatMul. -/
def displayVolPct (volume : ℚ) : ℤ :=
  let v := pyInt (floatMul volume 100)
  if v % 10 = 9 then v + 1 else v

/-- pyms.py lines 251-280 (the source function song_info_parser): the
time / volume status line. -/
def songInfoParser (current_secs total_secs : ℕ) (volume : ℚ) (max_width : ℕ) : String :=
  let current_mins := current_secs / 60
  let current_secs2 := current_secs % 60
  let total_mins := total_secs / 60
  let total_secs2 := total_secs % 60
  let current_time := fmt02 current_mins ++ ":" ++ fmt02 current_secs2
  let total_time := fmt02 total_mins ++ ":" ++ fmt02 total_secs2
  let volume_str := "Volume: " ++ toString (displayVolPct volume) ++ "%"
  current_time ++ " / " ++ total_time ++
    pyRjust volume_str ((max_width : ℤ) - current_time.length - total_time.length - 3)

/-- pyms.py lines 283-299: recompute the progress bar.  The mixer position
(milliseconds) and the mutagen duration (seconds, a float) enter as
parameters.  The source computes percentage = curr_time / total_time with
no guard: when int(track_length) = 0 the division raises an uncaught
ZeroDivisionError, modelled as none. -/
def update_bar (pos_ms : ℤ) (track_length : ℚ) : Option String :=
  let curr_time := pyInt ((pos_ms : ℚ) / 1000)
  let total_time := pyInt track_length
  if total_time = 0 then none
  else some (barParser ((curr_time : ℚ) / (total_time : ℚ)) box_width)

/-- Default used with List.getD when indexing the line list (the theorems
always carry a length bound, so the default is never reached). -/
def dline : String × Bool := ("", true)

/-- pyms.py lines 98-108: splice the pause glyph into columns 10..16 of
rows 6, 7 and 8. -/
def pause_symbol (lines : List (String × Bool)) : List (String × Bool) :=
  let t6 := (lines.getD 6 dline).1
  let t7 := (lines.getD 7 dline).1
  let t8 := (lines.getD 8 dline).1
  ((lines.set 6 (pyTake t6 10 ++ paus1 ++ pyDrop t6 16, true)).set
      7 (pyTake t7 10 ++ paus2 ++ pyDrop t7 16, true)).set
    8 (pyTake t8 10 ++ paus3 ++ pyDrop t8 16, true)

/-- pyms.py lines 111-121: splice the play glyph into columns 10..16 of
rows 6, 7 and 8. -/
def play_symbol (lines : List (String × Bool)) : List (String × Bool) :=
  let t6 := (lines.getD 6 dline).1
  let t7 := (lines.getD 7 dline).1
  let t8 := (lines.getD 8 dline).1
  ((lines.set 6 (pyTake t6 10 ++ play1 ++ pyDrop t6 16, true)).set
      7 (pyTake t7 10 ++ play2 ++ pyDrop t7 16, true)).set
    8 (pyTake t8 10 ++ play3 ++ pyDrop t8 16, true)

/-- pyms.py lines 381-384 (F8 handler): the value passed to
pygame.mixer.music.set_volume, namely round(round(curr_vol, 1), 8) -
0.10000000.  There is no clamping in the source.  Arithmetic is modelled
exactly (every value reached here is a one-decimal multiple, exact in this
model). -/
def volumeDownTarget (curr_vol : ℚ) : ℚ := pyRoundTo (pyRoundTo curr_vol 1) 8 - 1/10

/-- pyms.py lines 391-394 (F9 handler): round(round(curr_vol, 1), 8) +
0.10000000, unclamped. -/
def volumeUpTarget (curr_vol : ℚ) : ℚ := pyRoundTo (pyRoundTo curr_vol 1) 8 + 1/10

/-- Modelled from the spec: newVolume = clamp(round(currentVolume,1) - 0.1,
0.0, 1.0) for the VolumeDown transition.  Stated only to be compared with
volumeDownTarget, the value the source actually passes. -/
def specVolumeDown (v : ℚ) : ℚ := max 0 (min 1 (pyRoundTo v 1 - 1/10))

/-- The calls the event handlers make against the playback service and the
display state, in order. -/
inductive Ev where
  | load (f : String)
  | play
  | rewind
  | unpause
  | setTitle (s : String)
  | setBar
  | setInfo
  | setSymbol
  | redraw
deriving DecidableEq

/-- pyms.py lines 354-378 (page_down branch of keyboard_listener): the
trace of calls, given the outcome of random_file (cand) and
pygame.mixer.music.get_busy() (busy).  On success: load and play the new
file and refresh title, bar, info, symbol, redraw.  On pygame.error
(no sibling found): rewind, and only if playback was not busy also unpause
and refresh. -/
def shuffleKeyEvents (cand : Option String) (busy : Bool) : List Ev :=
  match cand with
  | some f => [.load f, .play, .setTitle (strip_path_from_filename f),
      .setBar, .setInfo, .setSymbol, .redraw]
  | none =>
      .rewind :: (if busy then [] else [.unpause, .setBar, .setInfo, .setSymbol, .redraw])

/-- pyms.py lines 413-433 (infinite_queue body on the end-of-track event):
same success path; on pygame.error the except branch is pass, so no calls
at all. -/
def trackEndEvents (cand : Option String) : List Ev :=
  match cand with
  | some f => [.load f, .play, .setTitle (strip_path_from_filename f),
      .setBar, .setInfo, .setSymbol, .redraw]
  | none => []

/-- The playback-service state observable through the mixer API: loaded
file, whether playback is running, playback position (seconds). -/
structure MixerState where
  file : String
  playing : Bool
  pos : ℕ
deriving DecidableEq

/-- Effect of one service call on the mixer state (display calls leave it
unchanged). -/
def runEv (s : MixerState) : Ev → MixerState
  | .load f => { s with file := f }
  | .play => { s with playing := true, pos := 0 }
  | .rewind => { s with pos := 0 }
  | .unpause => { s with playing := true }
  | _ => s

/-- Effect of a trace of service calls. -/
def runEvents (s : MixerState) (l : List Ev) : MixerState := l.foldl runEv s

/-- Round-half-even returns an integer no smaller than any integer lower
bound of its argument. -/
lemma roundHalfEvenZ_ge {q : ℚ} {n : ℤ} (h : (n:ℚ) ≤ q) : n ≤ roundHalfEvenZ q := by
  have hn : n ≤ ⌊q⌋ := Int.le_floor.mpr h
  simp only [roundHalfEvenZ]
  split_ifs <;> omega

/-- Round-half-even returns an integer no larger than any integer upper
bound of its argument. -/
lemma roundHalfEvenZ_le {q : ℚ} {n : ℤ} (h : q ≤ (n:ℚ)) : roundHalfEvenZ q ≤ n := by
  have hf : (⌊q⌋:ℚ) ≤ q := Int.floor_le q
  have hfn : ⌊q⌋ ≤ n := by
    have h2 := Int.floor_le_floor h
    rwa [Int.floor_intCast] at h2
  simp only [roundHalfEvenZ]
  split_ifs with h1 h2 h3
  · exact hfn
  · have h4 : (⌊q⌋:ℚ) < (n:ℚ) := by linarith
    have h5 : ⌊q⌋ < n := Int.cast_lt.mp h4
    omega
  · exact hfn
  · have h4 : (⌊q⌋:ℚ) < (n:ℚ) := by linarith
    have h5 : ⌊q⌋ < n := Int.cast_lt.mp h4
    omega

/-- Round-half-even fixes integers. -/
lemma roundHalfEvenZ_intCast (n : ℤ) : roundHalfEvenZ ((n:ℤ):ℚ) = n := by
  simp only [roundHalfEvenZ, Int.floor_intCast]
  rw [if_pos (by norm_num)]

/-- Python round(q, n) fixes any q that is already an exact multiple of
10^(-n). -/
lemma pyRoundTo_eq_self {q : ℚ} {n : ℕ} {m : ℤ} (h : q * 10 ^ n = (m : ℚ)) :
    pyRoundTo q n = q := by
  unfold pyRoundTo
  rw [h, roundHalfEvenZ_intCast, ← h]
  exact mul_div_cancel_right₀ q (by positivity)

/-- C1: the claim states that update_bar treats a total duration of 0 as
progress fraction 0 and never fails with a division by zero.  The source
has no such guard: curr_time / total_time raises ZeroDivisionError when the
track length truncates to 0, which this evaluation of the embedded code at
the failing input exhibits (none = the uncaught exception). -/
theorem c1_zero_duration_divides : update_bar 5000 0 = none := by
  norm_num [update_bar, pyInt]

/-- C4: on a failed sibling pick (NotFoundError), the manual shuffle
handler rewinds the current track (position 0) and ensures playback is
running (unpausing exactly when it was stopped), while the auto-advance
handler issues no calls at all and leaves the mixer state unchanged. -/
theorem c4_notfound_two_recoveries (s : MixerState) :
    (shuffleKeyEvents none s.playing).head? = some Ev.rewind ∧
    runEvents s (shuffleKeyEvents none s.playing) = { s with pos := 0, playing := true } ∧
    trackEndEvents none = [] ∧
    runEvents s (trackEndEvents none) = s := by
  obtain ⟨f, p, pos⟩ := s
  cases p <;> simp [shuffleKeyEvents, trackEndEvents, runEvents, runEv]

/-- C2: the claim states that the volume handlers clamp the new volume into
the unit interval before passing it to the playback service.  The source
passes round(round(v,1),8) minus or plus 0.1 with no clamp: at volume 0 the
VolumeDown handler passes -0.1, not the clamped 0 the spec formula
yields. -/
theorem c2_counterexample :
    volumeDownTarget 0 = -(1/10) ∧ volumeDownTarget 0 < 0 ∧ specVolumeDown 0 = 0 := by
  have h1 : pyRoundTo 0 1 = 0 := pyRoundTo_eq_self (m := 0) (by norm_num)
  have h2 : pyRoundTo 0 8 = 0 := pyRoundTo_eq_self (m := 0) (by norm_num)
  unfold volumeDownTarget specVolumeDown
  rw [h1, h2, min_eq_right (by norm_num), max_eq_left (by norm_num)]
  norm_num

/-- C2 amended: the handlers pass the unclamped value round(round(v,1),8)
minus or plus 0.1; for a current volume in the unit interval it lies in
[-0.1, 0.9] for VolumeDown and in [0.1, 1.1] for VolumeUp, so it can leave
the unit interval by exactly one step at the extremes. -/
theorem c2_unclamped (v : ℚ) (h0 : 0 ≤ v) (h1 : v ≤ 1) :
    -(1/10) ≤ volumeDownTarget v ∧ volumeDownTarget v ≤ 9/10 ∧
    1/10 ≤ volumeUpTarget v ∧ volumeUpTarget v ≤ 11/10 := by
  have hk0 : (0:ℤ) ≤ roundHalfEvenZ (v * 10) := roundHalfEvenZ_ge (by push_cast; linarith)
  have hk10 : roundHalfEvenZ (v * 10) ≤ 10 := roundHalfEvenZ_le (by push_cast; linarith)
  have hr1 : pyRoundTo v 1 = (roundHalfEvenZ (v * 10) : ℚ) / 10 := by
    unfold pyRoundTo
    norm_num
  have hmul : pyRoundTo v 1 * 10 ^ (8:ℕ) = ((roundHalfEvenZ (v * 10) * 10 ^ 7 : ℤ) : ℚ) := by
    rw [hr1]
    push_cast
    ring
  have hr8 : pyRoundTo (pyRoundTo v 1) 8 = pyRoundTo v 1 := pyRoundTo_eq_self hmul
  unfold volumeDownTarget volumeUpTarget
  rw [hr8, hr1]
  have hc0 : (0:ℚ) ≤ (roundHalfEvenZ (v * 10) : ℚ) := by exact_mod_cast hk0
  have hc10 : (roundHalfEvenZ (v * 10) : ℚ) ≤ 10 := by exact_mod_cast hk10
  refine ⟨by linarith, by linarith, by linarith, by linarith⟩

/-- Witness for the amended C2 at current volume 1/2. -/
theorem c2_unclamped_witness :
    (0:ℚ) ≤ 1/2 ∧ (1/2:ℚ) ≤ 1 ∧
    (-(1/10) ≤ volumeDownTarget (1/2) ∧ volumeDownTarget (1/2) ≤ 9/10 ∧
     1/10 ≤ volumeUpTarget (1/2) ∧ volumeUpTarget (1/2) ≤ 11/10) :=
  ⟨by norm_num, by norm_num, c2_unclamped (1/2) (by norm_num) (by norm_num)⟩

/-- A member of the filtered candidate list differs from the current
basename and ends in one of the three allow-listed extensions. -/
lemma musicFiles_spec {files : List String} {old : String} {f : String}
    (h : f ∈ musicFiles files old) :
    f ≠ old ∧ (pyEndsWith f ".mp3" || pyEndsWith f ".wav" || pyEndsWith f ".ogg") = true := by
  unfold musicFiles at h
  have hp := List.of_mem_filter h
  rw [Bool.and_eq_true] at hp
  exact ⟨by simpa using hp.2, hp.1⟩

/-- C3: the sibling picker either signals the not-found error exactly when
the filtered candidate set is empty, or returns the chosen directory entry
joined to the directory: that entry is one of the filtered candidates, so
it differs from the current basename and carries one of the three
allow-listed extensions. -/
theorem c3_random_pick (cwd : String) (files : List String) (path : String) (pick : ℕ) :
    (random_file cwd files path pick = none ↔
      musicFiles files (strip_path_from_filename path) = []) ∧
    (∀ r, random_file cwd files path pick = some r →
      ∃ f ∈ musicFiles files (strip_path_from_filename path),
        r = pyJoin (strip_filename_from_path cwd path) f ∧
        f ≠ strip_path_from_filename path ∧
        (pyEndsWith f ".mp3" || pyEndsWith f ".wav" || pyEndsWith f ".ogg") = true) := by
  unfold random_file
  by_cases h : (musicFiles files (strip_path_from_filename path)).length = 0
  · rw [dif_pos h]
    refine ⟨by simp [List.length_eq_zero.mp h], ?_⟩
    intro r hr
    exact absurd hr (by simp)
  · rw [dif_neg h]
    constructor
    · constructor
      · intro hc
        exact absurd hc (by simp)
      · intro hc
        exact absurd (congrArg List.length hc) (by simpa using h)
    · intro r hr
      have hmem := List.get_mem (musicFiles files (strip_path_from_filename path))
        (pick % (musicFiles files (strip_path_from_filename path)).length)
        (Nat.mod_lt _ (Nat.pos_of_ne_zero h))
      exact ⟨_, hmem, (Option.some_injective _ hr).symm,
        (musicFiles_spec hmem).1, (musicFiles_spec hmem).2⟩

/-- Witness for C3: in a directory listing with one other audio sibling the
pick returns that sibling joined to the directory; in a listing holding
only the current file the pick signals the error. -/
theorem c3_random_pick_witness :
    random_file "/home" ["a.mp3", "b.ogg", "x.txt"] "a.mp3" 0 = some "/home/b.ogg" ∧
    random_file "/home" ["a.mp3"] "a.mp3" 0 = none ∧
    (∃ f ∈ musicFiles ["a.mp3", "b.ogg", "x.txt"] (strip_path_from_filename "a.mp3"),
        "/home/b.ogg" = pyJoin (strip_filename_from_path "/home" "a.mp3") f ∧
        f ≠ strip_path_from_filename "a.mp3" ∧
        (pyEndsWith f ".mp3" || pyEndsWith f ".wav" || pyEndsWith f ".ogg") = true) := by
  have he : random_file "/home" ["a.mp3", "b.ogg", "x.txt"] "a.mp3" 0 = some "/home/b.ogg" := by
    decide
  refine ⟨he, ?_, (c3_random_pick "/home" ["a.mp3", "b.ogg", "x.txt"] "a.mp3" 0).2 _ he⟩
  exact (c3_random_pick "/home" ["a.mp3"] "a.mp3" 0).1.mpr (by decide)

/-- The character list of a constructed string. -/
lemma data_mk (l : List Char) : (String.mk l).data = l := rfl

/-- The length of a constructed string. -/
lemma length_mk (l : List Char) : (String.mk l).length = l.length := rfl

/-- The length of a repeated character. -/
lemma pyRepeatChar_length (c : Char) (n : ℕ) : (pyRepeatChar c n).length = n := by
  simp [pyRepeatChar, length_mk]

/-- Centering pads a short string to the width and keeps a long one. -/
lemma pyCenter_length (s : String) (width : ℕ) :
    (pyCenter s width).length = max s.length width := by
  unfold pyCenter
  split_ifs with h
  · exact (max_eq_left h).symm
  · have hand : (width - s.length) &&& width &&& 1 ≤ 1 := Nat.and_le_right
    rw [String.length_append, String.length_append, pyRepeatChar_length, pyRepeatChar_length]
    omega

/-- Left justification pads a short string to the width and keeps a long
one. -/
lemma pyLjust_length (s : String) (width : ℕ) :
    (pyLjust s width).length = max s.length width := by
  unfold pyLjust
  split_ifs with h
  · exact (max_eq_left h).symm
  · rw [String.length_append, pyRepeatChar_length]
    omega

/-- A line no longer than min(box_width, width) is left untouched. -/
lemma truncLine_eq_of_le {line : String} {w : ℕ} (h : line.length ≤ min box_width w) :
    truncLine line w = line := by
  unfold truncLine
  rw [if_neg (not_lt.mpr h)]

/-- Shape of the truncated line when the source cuts it. -/
lemma truncLine_eq_of_lt {line : String} {w : ℕ} (hw : 3 ≤ w)
    (h : min box_width w < line.length) :
    truncLine line w = String.mk (line.data.take (min box_width w - 3)) ++ term := by
  have hm3 : 3 ≤ min box_width w := le_min (by norm_num [box_width]) hw
  have hterm : (term.length : ℤ) = 3 := rfl
  have hpos : (0:ℤ) ≤ (min box_width w : ℤ) - (term.length : ℤ) := by
    rw [hterm]
    omega
  have htoNat : ((min box_width w : ℤ) - (term.length : ℤ)).toNat = min box_width w - 3 := by
    rw [hterm]
    omega
  unfold truncLine pySliceTo pyTake
  rw [if_pos h, if_pos hpos, htoNat]

/-- Length of the truncated line when the source cuts it. -/
lemma truncLine_length_of_lt {line : String} {w : ℕ} (hw : 3 ≤ w)
    (h : min box_width w < line.length) :
    (truncLine line w).length = min box_width w := by
  have hm3 : 3 ≤ min box_width w := le_min (by norm_num [box_width]) hw
  have hdata : line.data.length = line.length := rfl
  rw [truncLine_eq_of_lt hw h, String.length_append, length_mk, List.length_take]
  have hterm : term.length = 3 := rfl
  rw [hterm, min_eq_left (by omega : min box_width w - 3 ≤ line.data.length)]
  omega

/-- After the truncation step a line never exceeds min(box_width, width). -/
lemma truncLine_length_le (line : String) {w : ℕ} (hw : 3 ≤ w) :
    (truncLine line w).length ≤ min box_width w := by
  rcases le_or_lt line.length (min box_width w) with hle | hlt
  · rw [truncLine_eq_of_le hle]
    exact hle
  · rw [truncLine_length_of_lt hw hlt]

/-- C7: the claim truncates whenever a line is longer than
min(box_width, terminal_width) - ellipsis_len.  The source condition is
length > min(box_width, terminal_width): a 44-character line with ample
terminal width exceeds 46 - 3 = 43 yet is returned untouched, with no
ellipsis marker at its end. -/
theorem c7_counterexample :
    truncLine (pyRepeatChar 'a' 44) 100 = pyRepeatChar 'a' 44 ∧
    (min box_width 100 : ℤ) - (term.length : ℤ) < ((pyRepeatChar 'a' 44).length : ℤ) ∧
    pyEndsWith (truncLine (pyRepeatChar 'a' 44) 100) term = false := by
  decide

/-- C7 amended: a line is truncated exactly when its length exceeds
min(box_width, terminal_width); the truncated text then ends with the
ellipsis marker and has total length exactly min(box_width,
terminal_width) (in particular at most 46); a line that fits is returned
unchanged. -/
theorem c7_truncation (line : String) (w : ℕ) (hw : 3 ≤ w) :
    (min box_width w < line.length →
      pyEndsWith (truncLine line w) term = true ∧
      (truncLine line w).length = min box_width w) ∧
    (line.length ≤ min box_width w → truncLine line w = line) := by
  refine ⟨?_, truncLine_eq_of_le⟩
  intro hlt
  refine ⟨?_, truncLine_length_of_lt hw hlt⟩
  rw [truncLine_eq_of_lt hw hlt]
  unfold pyEndsWith
  rw [decide_eq_true_eq, String.data_append]
  exact List.suffix_append _ _

/-- Witness for the amended C7: a 60-character line at box width 46 and
terminal width 100 ends with the marker and has length min(46, 100) = 46. -/
theorem c7_truncation_witness :
    pyEndsWith (truncLine (pyRepeatChar 'a' 60) 100) term = true ∧
    (truncLine (pyRepeatChar 'a' 60) 100).length = min box_width 100 :=
  (c7_truncation (pyRepeatChar 'a' 60) 100 (by norm_num)).1 (by decide)

/-- C10: the claim asserts each body line has length exactly frame.columns
for every frame with positive dimensions.  At columns = 1 a two-character
centered line is turned into the bare ellipsis marker of length 3 (Python
slicing with the negative stop 1 - 3 keeps everything but the last two
characters), so the rendered body line is wider than the terminal. -/
theorem c10_counterexample :
    bodyLines [("ab", true)] ⟨1, 5⟩ = ["..."] ∧
    (0:ℕ) < 1 ∧ (0:ℕ) < 5 ∧ ("...").length ≠ 1 := by
  decide

/-- C10 amended: for a terminal at least as wide as the ellipsis marker
(columns at least 3), every body line produced by interface has length
exactly frame.columns. -/
theorem c10_body_width (lines : List (String × Bool)) (frame : TerminalFrame)
    (hw : 3 ≤ frame.columns) :
    ∀ s ∈ bodyLines lines frame, s.length = frame.columns := by
  intro s hs
  unfold bodyLines at hs
  obtain ⟨t, ht, rfl⟩ := List.mem_map.mp hs
  obtain ⟨txt, ctr⟩ := t
  have hmw : min box_width frame.columns ≤ frame.columns := min_le_right _ _
  have htr : (truncLine txt frame.columns).length ≤ min box_width frame.columns :=
    truncLine_length_le txt hw
  cases ctr
  · show (pyCenter (pyLjust (truncLine txt frame.columns) (min box_width frame.columns))
      frame.columns).length = frame.columns
    rw [pyCenter_length, pyLjust_length]
    omega
  · show (pyCenter (pyCenter (truncLine txt frame.columns) (min box_width frame.columns))
      frame.columns).length = frame.columns
    rw [pyCenter_length, pyCenter_length]
    omega

/-- Witness for the amended C10: the first panel line rendered at an
80-column terminal has length exactly 80. -/
theorem c10_body_width_witness : (fmtLine ("", true) 80).length = 80 :=
  c10_body_width i_lines ⟨80, 24⟩ (by norm_num) (fmtLine ("", true) 80) (by decide)

/-- Folding string concatenation collects the character lists. -/
lemma data_foldl_append (l : List String) (acc : String) :
    (l.foldl (· ++ ·) acc).data = acc.data ++ (l.map String.data).flatten := by
  induction l generalizing acc with
  | nil => simp
  | cons a t ih =>
      rw [List.foldl_cons, ih, String.data_append]
      simp [List.append_assoc]

/-- The character list of a joined list of strings. -/
lemma data_join (l : List String) : (String.join l).data = (l.map String.data).flatten := by
  simpa [String.join] using data_foldl_append l ""

/-- Every line keeps at least the full terminal width after the final
centering step. -/
lemma le_fmtLine_length (t : String × Bool) (w : ℕ) : w ≤ (fmtLine t w).length := by
  unfold fmtLine
  rw [pyCenter_length]
  exact le_max_right _ _

/-- Characters produced by centering are pad spaces or come from the
input. -/
lemma mem_data_pyCenter {s : String} {w : ℕ} {c : Char} (h : c ∈ (pyCenter s w).data) :
    c = ' ' ∨ c ∈ s.data := by
  unfold pyCenter at h
  split_ifs at h with hsw
  · exact Or.inr h
  · simp only [pyRepeatChar, String.data_append, data_mk, List.mem_append,
      List.mem_replicate] at h
    rcases h with (⟨_, hc⟩ | hc) | ⟨_, hc⟩
    · exact Or.inl hc
    · exact Or.inr hc
    · exact Or.inl hc

/-- Characters produced by left justification are pad spaces or come from
the input. -/
lemma mem_data_pyLjust {s : String} {w : ℕ} {c : Char} (h : c ∈ (pyLjust s w).data) :
    c = ' ' ∨ c ∈ s.data := by
  unfold pyLjust at h
  split_ifs at h with hsw
  · exact Or.inr h
  · simp only [pyRepeatChar, String.data_append, data_mk, List.mem_append,
      List.mem_replicate] at h
    rcases h with hc | ⟨_, hc⟩
    · exact Or.inr hc
    · exact Or.inl hc

/-- Characters produced by truncation are ellipsis dots or come from the
input line. -/
lemma mem_data_truncLine {line : String} {w : ℕ} {c : Char}
    (h : c ∈ (truncLine line w).data) : c = '.' ∨ c ∈ line.data := by
  unfold truncLine at h
  split_ifs at h with hlt
  · rw [String.data_append] at h
    rcases List.mem_append.mp h with h1 | h2
    · unfold pySliceTo pyTake at h1
      rw [data_mk] at h1
      exact Or.inr (List.take_subset _ _ h1)
    · have hterm : term.data = ['.', '.', '.'] := rfl
      rw [hterm] at h2
      simp only [List.mem_cons, List.not_mem_nil, or_false] at h2
      rcases h2 with h2 | h2 | h2 <;> exact Or.inl h2
  · exact Or.inr h

/-- Characters of a formatted body line are pad spaces, ellipsis dots, or
characters of the input text. -/
lemma mem_data_fmtLine {t : String × Bool} {w : ℕ} {c : Char}
    (h : c ∈ (fmtLine t w).data) : c = ' ' ∨ c = '.' ∨ c ∈ t.1.data := by
  unfold fmtLine at h
  rcases mem_data_pyCenter h with hc | h2
  · exact Or.inl hc
  · by_cases h2c : t.2 = true
    · rw [if_pos h2c] at h2
      rcases mem_data_pyCenter h2 with hc | h3
      · exact Or.inl hc
      · rcases mem_data_truncLine h3 with hc | h4
        · exact Or.inr (Or.inl hc)
        · exact Or.inr (Or.inr h4)
    · rw [if_neg h2c] at h2
      rcases mem_data_pyLjust h2 with hc | h3
      · exact Or.inl hc
      · rcases mem_data_truncLine h3 with hc | h4
        · exact Or.inr (Or.inl hc)
        · exact Or.inr (Or.inr h4)

/-- A run of k newlines followed by a list that starts with no newline has
exactly k leading newlines. -/
lemma takeWhile_nl_replicate (k : ℕ) (l : List Char)
    (h : l.takeWhile (fun c => c == '\n') = []) :
    ((List.replicate k '\n' ++ l).takeWhile (fun c => c == '\n')).length = k := by
  induction k with
  | zero => simpa using congrArg List.length h
  | succ n ih =>
      rw [List.replicate_succ, List.cons_append, List.takeWhile_cons_of_pos (by simp),
        List.length_cons, ih]

/-- The interface body (the part after the vertical padding) starts with no
newline when the line texts are newline-free and the terminal has positive
width. -/
lemma body_no_leading_nl (lines : List (String × Bool)) (frame : TerminalFrame)
    (hc : 0 < frame.columns) (hn : ∀ t ∈ lines, ('\n' : Char) ∉ t.1.data) :
    (String.join ((bodyLines lines frame).map (fun l => l ++ "\n"))).data.takeWhile
      (fun c => c == '\n') = [] := by
  cases lines with
  | nil => rfl
  | cons t rest =>
      have hlen : 0 < (fmtLine t frame.columns).length :=
        lt_of_lt_of_le hc (le_fmtLine_length t frame.columns)
      obtain ⟨c, cs, hd⟩ : ∃ c cs, (fmtLine t frame.columns).data = c :: cs := by
        cases hcs : (fmtLine t frame.columns).data with
        | nil =>
            exfalso
            have h0 : (fmtLine t frame.columns).length = 0 := by
              rw [show (fmtLine t frame.columns).length
                  = (fmtLine t frame.columns).data.length from rfl, hcs]
              rfl
            omega
        | cons c cs => exact ⟨c, cs, rfl⟩
      have hcn : c ≠ '\n' := by
        have hcmem : c ∈ (fmtLine t frame.columns).data := by
          rw [hd]
          exact List.mem_cons_self _ _
        rcases mem_data_fmtLine hcmem with h1 | h1 | h1
        · rw [h1]
          decide
        · rw [h1]
          decide
        · intro hEq
          exact hn t (List.mem_cons_self _ _) (hEq ▸ h1)
      have hcb : ¬((c == '\n') = true) := by
        simpa using hcn
      show (String.join ((bodyLines (t :: rest) frame).map (fun l => l ++ "\n"))).data.takeWhile
        (fun ch => ch == '\n') = []
      rw [show bodyLines (t :: rest) frame
          = fmtLine t frame.columns :: bodyLines rest frame from rfl, List.map_cons,
        data_join, List.map_cons]
      rw [List.flatten_cons, String.data_append, hd]
      rw [List.cons_append, List.cons_append]
      exact List.takeWhile_cons_of_neg hcb

/-- C8: the interface output has exactly
(floor(frame.lines/2) - floor(len(lines)/2)).toNat leading blank lines
(integer floor on both halves), and when the panel has more lines than the
terminal the padding degenerates to zero rather than a negative count.
Stated for newline-free line texts and a positive terminal width. -/
theorem c8_vertical_centering (lines : List (String × Bool)) (frame : TerminalFrame)
    (hc : 0 < frame.columns) (hn : ∀ t ∈ lines, ('\n' : Char) ∉ t.1.data) :
    countLeadingNL (interface lines frame) =
      (((frame.lines / 2 : ℕ) : ℤ) - ((lines.length / 2 : ℕ) : ℤ)).toNat ∧
    (frame.lines < lines.length → countLeadingNL (interface lines frame) = 0) := by
  have hbody := body_no_leading_nl lines frame hc hn
  have hmain : countLeadingNL (interface lines frame) =
      (((frame.lines / 2 : ℕ) : ℤ) - ((lines.length / 2 : ℕ) : ℤ)).toNat := by
    unfold countLeadingNL interface
    rw [String.data_append]
    unfold pyRepeatChar
    rw [data_mk]
    exact takeWhile_nl_replicate _ _ hbody
  refine ⟨hmain, fun hlt => ?_⟩
  rw [hmain]
  omega

/-- Witness for C8: the ten-slot panel on an 80 by 24 terminal gets
12 - 5 = 7 leading blank lines. -/
theorem c8_vertical_centering_witness :
    countLeadingNL (interface i_lines ⟨80, 24⟩) =
      (((24 / 2 : ℕ) : ℤ) - ((i_lines.length / 2 : ℕ) : ℤ)).toNat ∧
    countLeadingNL (interface i_lines ⟨80, 24⟩) = 7 := by
  have h := (c8_vertical_centering i_lines ⟨80, 24⟩ (by norm_num) (by decide)).1
  exact ⟨h, by rw [h]; decide⟩

/-- Indexing away from the updated slot reads the original list. -/
lemma getD_set_ne (l : List (String × Bool)) (a : String × Bool) {i j : ℕ} (h : i ≠ j) :
    (l.set i a).getD j dline = l.getD j dline := by
  rw [List.getD_eq_getElem?_getD, List.getElem?_set_ne h, ← List.getD_eq_getElem?_getD]

/-- Indexing the updated slot reads the new entry. -/
lemma getD_set_self (l : List (String × Bool)) (a : String × Bool) {i : ℕ} (h : i < l.length) :
    (l.set i a).getD i dline = a := by
  rw [List.getD_eq_getElem?_getD, List.getElem?_set_self h]
  rfl

/-- Reading the three spliced slots and every other slot after the three
set operations shared by pause_symbol and play_symbol. -/
lemma set3_props (l : List (String × Bool)) (x6 x7 x8 : String × Bool) (hlen : 9 ≤ l.length) :
    (∀ i, i ≠ 6 → i ≠ 7 → i ≠ 8 →
      (((l.set 6 x6).set 7 x7).set 8 x8).getD i dline = l.getD i dline) ∧
    (((l.set 6 x6).set 7 x7).set 8 x8).getD 6 dline = x6 ∧
    (((l.set 6 x6).set 7 x7).set 8 x8).getD 7 dline = x7 ∧
    (((l.set 6 x6).set 7 x7).set 8 x8).getD 8 dline = x8 := by
  refine ⟨?_, ?_, ?_, ?_⟩
  · intro i h6 h7 h8
    rw [getD_set_ne _ _ (Ne.symm h8), getD_set_ne _ _ (Ne.symm h7), getD_set_ne _ _ (Ne.symm h6)]
  · rw [getD_set_ne _ _ (by norm_num), getD_set_ne _ _ (by norm_num),
      getD_set_self _ _ (by omega)]
  · rw [getD_set_ne _ _ (by norm_num),
      getD_set_self _ _ (by rw [List.length_set]; omega)]
  · rw [getD_set_self _ _ (by rw [List.length_set, List.length_set]; omega)]

/-- Splicing a 6-character glyph into columns 10..16 of a row of length at
least 16 leaves the first 10 columns and the columns from 16 on
unchanged. -/
lemma splice_take_drop {t g : String} (ht : 16 ≤ t.length) (hg : g.length = 6) :
    pyTake (pyTake t 10 ++ g ++ pyDrop t 16) 10 = pyTake t 10 ∧
    pyDrop (pyTake t 10 ++ g ++ pyDrop t 16) 16 = pyDrop t 16 := by
  have hdata : t.data.length = t.length := rfl
  have hgdata : g.data.length = g.length := rfl
  have h10 : (t.data.take 10).length = 10 := by
    rw [List.length_take]
    omega
  have h16 : (t.data.take 10 ++ g.data).length = 16 := by
    rw [List.length_append, h10]
    omega
  have hA : (pyTake t 10 ++ g ++ pyDrop t 16).data
      = (t.data.take 10 ++ g.data) ++ t.data.drop 16 := by
    unfold pyTake pyDrop
    rw [String.data_append, String.data_append, data_mk, data_mk]
  constructor
  · show String.mk ((pyTake t 10 ++ g ++ pyDrop t 16).data.take 10) = String.mk (t.data.take 10)
    rw [hA]
    apply congrArg
    rw [List.append_assoc]
    exact List.take_left' h10
  · show String.mk ((pyTake t 10 ++ g ++ pyDrop t 16).data.drop 16) = String.mk (t.data.drop 16)
    rw [hA]
    apply congrArg
    exact List.drop_left' h16

/-- C9: each transport-symbol rewrite changes only slots 6-8, and inside
those three rows only columns 10..16: every other slot is returned
verbatim, and in rows 6-8 the first ten columns and the columns from 16 on
are identical before and after the splice (stated for a panel with at
least 9 slots whose glyph rows are at least 16 characters wide, as in the
program). -/
theorem c9_symbol_splice (l : List (String × Bool)) (hlen : 9 ≤ l.length)
    (h6 : 16 ≤ (l.getD 6 dline).1.length)
    (h7 : 16 ≤ (l.getD 7 dline).1.length)
    (h8 : 16 ≤ (l.getD 8 dline).1.length) :
    (∀ i, i ≠ 6 → i ≠ 7 → i ≠ 8 →
      (pause_symbol l).getD i dline = l.getD i dline ∧
      (play_symbol l).getD i dline = l.getD i dline) ∧
    (∀ i, i = 6 ∨ i = 7 ∨ i = 8 →
      pyTake ((pause_symbol l).getD i dline).1 10 = pyTake (l.getD i dline).1 10 ∧
      pyDrop ((pause_symbol l).getD i dline).1 16 = pyDrop (l.getD i dline).1 16 ∧
      pyTake ((play_symbol l).getD i dline).1 10 = pyTake (l.getD i dline).1 10 ∧
      pyDrop ((play_symbol l).getD i dline).1 16 = pyDrop (l.getD i dline).1 16) := by
  have hpa := set3_props l
    (pyTake (l.getD 6 dline).1 10 ++ paus1 ++ pyDrop (l.getD 6 dline).1 16, true)
    (pyTake (l.getD 7 dline).1 10 ++ paus2 ++ pyDrop (l.getD 7 dline).1 16, true)
    (pyTake (l.getD 8 dline).1 10 ++ paus3 ++ pyDrop (l.getD 8 dline).1 16, true) hlen
  have hpl := set3_props l
    (pyTake (l.getD 6 dline).1 10 ++ play1 ++ pyDrop (l.getD 6 dline).1 16, true)
    (pyTake (l.getD 7 dline).1 10 ++ play2 ++ pyDrop (l.getD 7 dline).1 16, true)
    (pyTake (l.getD 8 dline).1 10 ++ play3 ++ pyDrop (l.getD 8 dline).1 16, true) hlen
  constructor
  · intro i hi6 hi7 hi8
    exact ⟨hpa.1 i hi6 hi7 hi8, hpl.1 i hi6 hi7 hi8⟩
  · intro i hi
    rcases hi with rfl | rfl | rfl
    · have hea : (pause_symbol l).getD 6 dline
          = (pyTake (l.getD 6 dline).1 10 ++ paus1 ++ pyDrop (l.getD 6 dline).1 16, true) :=
        hpa.2.1
      have hel : (play_symbol l).getD 6 dline
          = (pyTake (l.getD 6 dline).1 10 ++ play1 ++ pyDrop (l.getD 6 dline).1 16, true) :=
        hpl.2.1
      rw [hea, hel]
      exact ⟨(splice_take_drop h6 (by decide)).1, (splice_take_drop h6 (by decide)).2,
        (splice_take_drop h6 (by decide)).1, (splice_take_drop h6 (by decide)).2⟩
    · have hea : (pause_symbol l).getD 7 dline
          = (pyTake (l.getD 7 dline).1 10 ++ paus2 ++ pyDrop (l.getD 7 dline).1 16, true) :=
        hpa.2.2.1
      have hel : (play_symbol l).getD 7 dline
          = (pyTake (l.getD 7 dline).1 10 ++ play2 ++ pyDrop (l.getD 7 dline).1 16, true) :=
        hpl.2.2.1
      rw [hea, hel]
      exact ⟨(splice_take_drop h7 (by decide)).1, (splice_take_drop h7 (by decide)).2,
        (splice_take_drop h7 (by decide)).1, (splice_take_drop h7 (by decide)).2⟩
    · have hea : (pause_symbol l).getD 8 dline
          = (pyTake (l.getD 8 dline).1 10 ++ paus3 ++ pyDrop (l.getD 8 dline).1 16, true) :=
        hpa.2.2.2
      have hel : (play_symbol l).getD 8 dline
          = (pyTake (l.getD 8 dline).1 10 ++ play3 ++ pyDrop (l.getD 8 dline).1 16, true) :=
        hpl.2.2.2
      rw [hea, hel]
      exact ⟨(splice_take_drop h8 (by decide)).1, (splice_take_drop h8 (by decide)).2,
        (splice_take_drop h8 (by decide)).1, (splice_take_drop h8 (by decide)).2⟩

/-- Witness for C9 on the program panel with a title line prepended: slot 0
is untouched by the pause splice, and rows 6 and 8 keep their prefix and
suffix around the glyph columns. -/
theorem c9_symbol_splice_witness :
    (pause_symbol (("title", false) :: i_lines)).getD 0 dline
        = (("title", false) :: i_lines).getD 0 dline ∧
    pyTake ((pause_symbol (("title", false) :: i_lines)).getD 6 dline).1 10
        = pyTake ((("title", false) :: i_lines).getD 6 dline).1 10 ∧
    pyDrop ((play_symbol (("title", false) :: i_lines)).getD 8 dline).1 16
        = pyDrop ((("title", false) :: i_lines).getD 8 dline).1 16 := by
  have h := c9_symbol_splice (("title", false) :: i_lines)
    (by decide) (by decide) (by decide) (by decide)
  exact ⟨(h.1 0 (by decide) (by decide) (by decide)).1,
    (h.2 6 (Or.inl rfl)).1, (h.2 8 (Or.inr (Or.inr rfl))).2.2.2⟩

/-- Round-half-even computed from the floor when the fractional part is
below one half. -/
lemma roundHalfEvenZ_eq_of_lt_half {q : ℚ} {n : ℤ} (hf : ⌊q⌋ = n) (hr : q - n < 1/2) :
    roundHalfEvenZ q = n := by
  simp only [roundHalfEvenZ, hf]
  rw [if_pos hr]

/-- The base-2 integer logarithm pinned down by a bracketing pair of
powers. -/
lemma log2_eq {q : ℚ} {e : ℤ} (h0 : 0 < q) (h1 : (2:ℚ)^e ≤ q) (h2 : q < (2:ℚ)^(e+1)) :
    Int.log 2 q = e := by
  have ha : e ≤ Int.log 2 q := (Int.zpow_le_iff_le_log (by norm_num) h0).mp h1
  have hb : Int.log 2 q < e + 1 := (Int.lt_zpow_iff_log_lt (by norm_num) h0).mp h2
  omega

/-- Evaluation scheme for roundDouble on a positive rational with known
exponent and rounded significand. -/
lemma roundDouble_pos {q : ℚ} {e m : ℤ} (hq : 0 < q)
    (he : Int.log 2 q = e) (hm : roundHalfEvenZ (q * 2 ^ ((52:ℤ) - e)) = m) :
    roundDouble q = (m : ℚ) * 2 ^ (e - 52) := by
  simp only [roundDouble]
  rw [if_neg hq.ne', if_neg (not_lt.mpr hq.le), abs_of_pos hq, he, hm, one_mul]

/-- Truncation agrees with the floor on nonnegative arguments. -/
lemma pyInt_eq_floor {q : ℚ} (h : 0 ≤ q) : pyInt q = ⌊q⌋ := by
  unfold pyInt
  rw [if_neg (not_lt.mpr h)]

/-- The binary64 value of the Python literal 0.29: it is strictly below
29/100 (significand 0.29 * 2^54 rounds down). -/
lemma double_29_100 : roundDouble (29/100) = 5224175567749775 * 2^(-54:ℤ) := by
  have h := roundDouble_pos (q := 29/100) (e := -2) (m := 5224175567749775)
    (by norm_num)
    (log2_eq (by norm_num) (by norm_num) (by norm_num))
    (roundHalfEvenZ_eq_of_lt_half
      (by rw [Int.floor_eq_iff] ; constructor <;> norm_num)
      (by push_cast ; norm_num))
  rw [h]
  norm_num

/-- The Python float product 0.29 * 100 rounds to just below 29. -/
lemma double_29_100_times_100 :
    floatMul (roundDouble (29/100)) 100 = 8162774324609023 * 2^(-48:ℤ) := by
  unfold floatMul
  rw [double_29_100]
  have h := roundDouble_pos (q := 5224175567749775 * 2^(-54:ℤ) * 100) (e := 4)
    (m := 8162774324609023)
    (by norm_num)
    (log2_eq (by norm_num) (by norm_num) (by norm_num))
    (roundHalfEvenZ_eq_of_lt_half
      (by rw [Int.floor_eq_iff] ; constructor <;> norm_num)
      (by push_cast ; norm_num))
  rw [h]
  norm_num

/-- Python int(0.29 * 100) is 28, not 29. -/
lemma int_29_pct : pyInt (floatMul (roundDouble (29/100)) 100) = 28 := by
  rw [double_29_100_times_100, pyInt_eq_floor (by norm_num), Int.floor_eq_iff]
  constructor <;> norm_num

/-- The displayed percentage for volume input 0.29 is 28. -/
lemma displayVolPct_29 : displayVolPct (roundDouble (29/100)) = 28 := by
  simp only [displayVolPct]
  rw [int_29_pct]
  norm_num

/-- The binary64 value of the Python literal 0.25 is exact. -/
lemma double_25_100 : roundDouble (25/100) = 1/4 := by
  have h := roundDouble_pos (q := 25/100) (e := -2) (m := 4503599627370496)
    (by norm_num)
    (log2_eq (by norm_num) (by norm_num) (by norm_num))
    (roundHalfEvenZ_eq_of_lt_half
      (by rw [Int.floor_eq_iff] ; constructor <;> norm_num)
      (by push_cast ; norm_num))
  rw [h]
  norm_num

/-- The Python float product 0.25 * 100 is exactly 25. -/
lemma double_25_100_times_100 : floatMul (roundDouble (25/100)) 100 = 25 := by
  unfold floatMul
  rw [double_25_100]
  have h := roundDouble_pos (q := 1/4 * 100) (e := 4) (m := 25 * 281474976710656)
    (by norm_num)
    (log2_eq (by norm_num) (by norm_num) (by norm_num))
    (roundHalfEvenZ_eq_of_lt_half
      (by rw [Int.floor_eq_iff] ; constructor <;> norm_num)
      (by push_cast ; norm_num))
  rw [h]
  norm_num

/-- The displayed percentage for volume input 0.25 is 25. -/
lemma displayVolPct_25 : displayVolPct (roundDouble (25/100)) = 25 := by
  simp only [displayVolPct]
  rw [double_25_100_times_100, pyInt_eq_floor (by norm_num)]
  norm_num

/-- C6: the claim states that volume input 0.29 is displayed as 30%.  Under
Python float semantics 0.29 * 100 evaluates to 28.999999999999996 (the
nearest double to 0.29 lies below 29/100), int() truncates it to 28, whose
last digit is not 9, so the status line for volume 0.29 ends in 28%, not
30%. -/
theorem c6_counterexample :
    pyEndsWith (songInfoParser 0 0 (roundDouble (29/100)) 46) "Volume: 30%" = false ∧
    pyEndsWith (songInfoParser 0 0 (roundDouble (29/100)) 46) "Volume: 28%" = true := by
  simp only [songInfoParser]
  rw [displayVolPct_29]
  constructor <;> decide

/-- C6 amended: the formatter bumps an integer percentage whose last digit
is 9 up to the next multiple of 10; under Python float semantics volume
input 0.29 yields integer percentage 28 and is displayed as 28% (the bump
never fires for it), while volume input 0.25 is displayed as 25%. -/
theorem c6_volume_round_up (v : ℚ) (h : pyInt (floatMul v 100) % 10 = 9) :
    displayVolPct v = pyInt (floatMul v 100) + 1 ∧
    displayVolPct v % 10 = 0 ∧
    pyEndsWith (songInfoParser 0 0 (roundDouble (25/100)) 46) "Volume: 25%" = true := by
  refine ⟨?_, ?_, ?_⟩
  · simp only [displayVolPct]
    rw [if_pos h]
  · simp only [displayVolPct]
    rw [if_pos h]
    omega
  · simp only [songInfoParser]
    rw [displayVolPct_25]
    decide

/-- The pygame volume 127/128 (the step just below full volume) has float
product 127/128 * 100 = 99.21875 exactly. -/
lemma double_127_128_times_100 : floatMul (127/128 : ℚ) 100 = 3175/32 := by
  unfold floatMul
  have h := roundDouble_pos (q := (127/128 : ℚ) * 100) (e := 6) (m := 3175 * 2199023255552)
    (by norm_num)
    (log2_eq (by norm_num) (by norm_num) (by norm_num))
    (roundHalfEvenZ_eq_of_lt_half
      (by rw [Int.floor_eq_iff] ; constructor <;> norm_num)
      (by push_cast ; norm_num))
  rw [h]
  norm_num

/-- Witness for the amended C6 at volume 127/128, whose truncated
percentage 99 ends in 9 and is displayed as 100. -/
theorem c6_volume_round_up_witness :
    pyInt (floatMul (127/128 : ℚ) 100) % 10 = 9 ∧
    displayVolPct (127/128 : ℚ) = pyInt (floatMul (127/128 : ℚ) 100) + 1 ∧
    displayVolPct (127/128 : ℚ) % 10 = 0 := by
  have h9 : pyInt (floatMul (127/128 : ℚ) 100) % 10 = 9 := by
    rw [double_127_128_times_100, pyInt_eq_floor (by norm_num)]
    rw [show ⌊(3175/32 : ℚ)⌋ = 99 from by rw [Int.floor_eq_iff] ; constructor <;> norm_num]
    decide
  exact ⟨h9, (c6_volume_round_up (127/128) h9).1, (c6_volume_round_up (127/128) h9).2.1⟩

/-- Witness for C4 at a concrete stopped mixer state. -/
theorem c4_notfound_two_recoveries_witness :
    runEvents ⟨"song.mp3", false, 7⟩ (shuffleKeyEvents none false) = ⟨"song.mp3", true, 0⟩ ∧
    runEvents ⟨"song.mp3", false, 7⟩ (trackEndEvents none) = ⟨"song.mp3", false, 7⟩ := by
  have h := c4_notfound_two_recoveries ⟨"song.mp3", false, 7⟩
  exact ⟨h.2.1, h.2.2.2⟩

/-- roundDouble fixes zero. -/
lemma roundDouble_zero : roundDouble 0 = 0 := by
  simp [roundDouble]

/-- Round-half-even at an exact half above an odd integer rounds up to the
even integer. -/
lemma roundHalfEvenZ_eq_of_half_odd {q : ℚ} {n : ℤ} (hf : ⌊q⌋ = n) (hr : q - n = 1/2)
    (hodd : n % 2 = 1) : roundHalfEvenZ q = n + 1 := by
  simp only [roundHalfEvenZ, hf]
  rw [if_neg (by rw [hr] ; norm_num), if_neg (by rw [hr] ; norm_num), if_neg (by omega)]

/-- A rational bounded by 2^52 has base-2 logarithm at most 52 (so its
binary64 unit in the last place is at most one). -/
lemma log2_le_of_le {q : ℚ} (h0 : 0 < q) (h : q ≤ 2 ^ (52:ℕ)) : Int.log 2 q ≤ 52 := by
  have h1 : Int.log 2 q ≤ Int.log 2 ((2:ℚ) ^ (52:ℕ)) := Int.log_mono_right h0 h
  have h2 : Int.log 2 ((2:ℚ) ^ (52:ℕ)) = 52 :=
    log2_eq (by positivity) (by norm_num) (by norm_num)
  omega

/-- Rounding to binary64 never crosses an integer bound from below, in the
range where integers are exactly representable. -/
lemma roundDouble_le_intCast {q : ℚ} {n : ℤ} (h0 : 0 < q) (hq : q ≤ (n:ℚ))
    (he : Int.log 2 q ≤ 52) : roundDouble q ≤ (n:ℚ) := by
  have hrd : roundDouble q =
      ((roundHalfEvenZ (q * 2 ^ ((52:ℤ) - Int.log 2 q)) : ℤ) : ℚ)
        * 2 ^ (Int.log 2 q - 52) := roundDouble_pos h0 rfl rfl
  set e := Int.log 2 q with hedef
  set k := ((52:ℤ) - e).toNat with hkdef
  have hk : (52:ℤ) - e = (k:ℤ) := by omega
  have hz : (2:ℚ) ^ ((52:ℤ) - e) = ((2 ^ k : ℤ) : ℚ) := by
    rw [hk, zpow_natCast]
    push_cast
    ring
  have hm : roundHalfEvenZ (q * 2 ^ ((52:ℤ) - e)) ≤ n * 2 ^ k := by
    apply roundHalfEvenZ_le
    rw [hz]
    push_cast
    have hp : (0:ℚ) ≤ 2 ^ k := by positivity
    nlinarith
  have hcast : ((roundHalfEvenZ (q * 2 ^ ((52:ℤ) - e)) : ℤ) : ℚ) ≤ ((n * 2 ^ k : ℤ) : ℚ) := by
    exact_mod_cast hm
  have hp2 : (0:ℚ) ≤ 2 ^ (e - 52) := by positivity
  have h2 : roundDouble q ≤ ((n * 2 ^ k : ℤ) : ℚ) * 2 ^ (e - 52) := by
    rw [hrd]
    exact mul_le_mul_of_nonneg_right hcast hp2
  have h3 : ((n * 2 ^ k : ℤ) : ℚ) * 2 ^ (e - 52) = (n:ℚ) := by
    push_cast
    rw [mul_assoc, ← zpow_natCast (2:ℚ) k, ← zpow_add₀ (by norm_num : (2:ℚ) ≠ 0),
      show (k:ℤ) + (e - 52) = 0 from by omega, zpow_zero, mul_one]
  linarith

/-- Rounding to binary64 never crosses an integer bound from above, in the
range where integers are exactly representable. -/
lemma roundDouble_ge_intCast {q : ℚ} {n : ℤ} (h0 : 0 < q) (hq : (n:ℚ) ≤ q)
    (he : Int.log 2 q ≤ 52) : (n:ℚ) ≤ roundDouble q := by
  have hrd : roundDouble q =
      ((roundHalfEvenZ (q * 2 ^ ((52:ℤ) - Int.log 2 q)) : ℤ) : ℚ)
        * 2 ^ (Int.log 2 q - 52) := roundDouble_pos h0 rfl rfl
  set e := Int.log 2 q with hedef
  set k := ((52:ℤ) - e).toNat with hkdef
  have hk : (52:ℤ) - e = (k:ℤ) := by omega
  have hz : (2:ℚ) ^ ((52:ℤ) - e) = ((2 ^ k : ℤ) : ℚ) := by
    rw [hk, zpow_natCast]
    push_cast
    ring
  have hm : n * 2 ^ k ≤ roundHalfEvenZ (q * 2 ^ ((52:ℤ) - e)) := by
    apply roundHalfEvenZ_ge
    rw [hz]
    push_cast
    have hp : (0:ℚ) ≤ 2 ^ k := by positivity
    nlinarith
  have hcast : ((n * 2 ^ k : ℤ) : ℚ) ≤ ((roundHalfEvenZ (q * 2 ^ ((52:ℤ) - e)) : ℤ) : ℚ) := by
    exact_mod_cast hm
  have hp2 : (0:ℚ) ≤ 2 ^ (e - 52) := by positivity
  have h2 : ((n * 2 ^ k : ℤ) : ℚ) * 2 ^ (e - 52) ≤ roundDouble q := by
    rw [hrd]
    exact mul_le_mul_of_nonneg_right hcast hp2
  have h3 : ((n * 2 ^ k : ℤ) : ℚ) * 2 ^ (e - 52) = (n:ℚ) := by
    push_cast
    rw [mul_assoc, ← zpow_natCast (2:ℚ) k, ← zpow_add₀ (by norm_num : (2:ℚ) ≠ 0),
      show (k:ℤ) + (e - 52) = 0 from by omega, zpow_zero, mul_one]
  linarith

/-- The binary64 value of the Python literal 0.7: it lies strictly below
7/10 (the scaled significand has fractional part 0.4 and rounds down). -/
lemma double_7_10 : roundDouble (7/10) = 6305039478318694 * 2 ^ (-53:ℤ) := by
  have h := roundDouble_pos (q := 7/10) (e := -1) (m := 6305039478318694)
    (by norm_num)
    (log2_eq (by norm_num) (by norm_num) (by norm_num))
    (roundHalfEvenZ_eq_of_lt_half
      (by rw [Int.floor_eq_iff] ; constructor <;> norm_num)
      (by push_cast ; norm_num))
  rw [h]
  norm_num

/-- The Python float product 0.7 * 10: the exact product is 7 - 2^(-51),
exactly half an ulp below 7, and the tie-to-even rounds it up to 7.0. -/
lemma double_7_10_times_10 : floatMul (roundDouble (7/10)) 10 = 7 := by
  unfold floatMul
  rw [double_7_10]
  have h := roundDouble_pos (q := 6305039478318694 * 2 ^ (-53:ℤ) * 10) (e := 2)
    (m := 7881299347898367 + 1)
    (by norm_num)
    (log2_eq (by norm_num) (by norm_num) (by norm_num))
    (roundHalfEvenZ_eq_of_half_odd
      (by rw [Int.floor_eq_iff] ; constructor <;> norm_num)
      (by push_cast ; norm_num)
      (by decide))
  rw [h]
  norm_num

/-- Python int(double(0.7) * 10) is 7. -/
lemma int_7_10 : pyInt (floatMul (roundDouble (7/10)) 10) = 7 := by
  rw [double_7_10_times_10, pyInt_eq_floor (by norm_num), Int.floor_eq_iff]
  constructor <;> norm_num

/-- The exact product double(0.7) * 10 still floors to 6. -/
lemma floor_7_10 : ⌊roundDouble (7/10) * 10⌋ = 6 := by
  rw [double_7_10, Int.floor_eq_iff]
  constructor <;> norm_num

/-- C5: the claim states the filled-block count equals floor(f * w) for
every fraction f in the unit interval.  The source multiplies binary64
floats: at f = double(0.7) (a value in [0,1]) and width 10 the float
product rounds up to exactly 7.0, the program fills 7 blocks, but
floor(f * w) = 6. -/
theorem c5_counterexample :
    (0:ℚ) ≤ roundDouble (7/10) ∧ roundDouble (7/10) ≤ 1 ∧ (0:ℕ) < 10 ∧
    (barParser (roundDouble (7/10)) 10).data.count '█' = 7 ∧
    ⌊roundDouble (7/10) * 10⌋ = 6 := by
  refine ⟨?_, ?_, by norm_num, ?_, floor_7_10⟩
  · rw [double_7_10]
    positivity
  · rw [double_7_10]
    norm_num
  · simp only [barParser, Nat.cast_ofNat]
    rw [int_7_10]
    decide

/-- C5 amended: for a fraction in the unit interval and a positive width up
to 2^52, the progress bar has length exactly the width, the filled-block
count is int(fl(f * w)) where fl rounds the product to binary64 as CPython
does, every remaining position holds the empty-block glyph, and that count
never undershoots floor(f * w) and exceeds it by at most one (it does
exceed when the product rounds up across an integer, as at f = double(0.7),
w = 10). -/
theorem c5_bar_float (f : ℚ) (w : ℕ) (h0 : 0 ≤ f) (h1 : f ≤ 1) (hw : 0 < w)
    (hw2 : w ≤ 2 ^ 52) :
    (barParser f w).length = w ∧
    (barParser f w).data.count '█' = (pyInt (floatMul f w)).toNat ∧
    (barParser f w).data.count '░' = w - (pyInt (floatMul f w)).toNat ∧
    (⌊f * (w:ℚ)⌋).toNat ≤ (pyInt (floatMul f w)).toNat ∧
    (pyInt (floatMul f w)).toNat ≤ (⌊f * (w:ℚ)⌋).toNat + 1 := by
  have hwq : (0:ℚ) ≤ (w:ℚ) := by positivity
  have hq0 : (0:ℚ) ≤ f * (w:ℚ) := by positivity
  have hqw : f * (w:ℚ) ≤ (w:ℚ) := by nlinarith
  rcases eq_or_lt_of_le hq0 with hz | hpos
  · have hfm : floatMul f w = 0 := by
      show roundDouble (f * (w:ℚ)) = 0
      rw [← hz, roundDouble_zero]
    have hpy : pyInt (floatMul f w) = 0 := by
      rw [hfm]
      unfold pyInt
      norm_num
    have hfloor : ⌊f * (w:ℚ)⌋ = 0 := by
      rw [← hz]
      norm_num
    refine ⟨?_, ?_, ?_, ?_, ?_⟩ <;>
      simp [barParser, pyRepeatChar, hpy, hfloor, String.length, String.data_append,
        List.count_append, List.count_replicate]
  · have he52 : Int.log 2 (f * (w:ℚ)) ≤ 52 := by
      apply log2_le_of_le hpos
      have h3 : (w:ℚ) ≤ (2:ℚ) ^ (52:ℕ) := by exact_mod_cast hw2
      linarith
    have hrd0 : (0:ℚ) ≤ roundDouble (f * (w:ℚ)) := by
      have h2 := roundDouble_ge_intCast (n := 0) hpos (by exact_mod_cast hpos.le) he52
      simpa using h2
    have hrdw : roundDouble (f * (w:ℚ)) ≤ ((w:ℤ):ℚ) :=
      roundDouble_le_intCast hpos (by push_cast ; linarith) he52
    have hfl : pyInt (floatMul f w) = ⌊roundDouble (f * (w:ℚ))⌋ := by
      show pyInt (roundDouble (f * (w:ℚ))) = ⌊roundDouble (f * (w:ℚ))⌋
      exact pyInt_eq_floor hrd0
    have hbw0 : 0 ≤ ⌊roundDouble (f * (w:ℚ))⌋ := Int.floor_nonneg.mpr hrd0
    have hbww : ⌊roundDouble (f * (w:ℚ))⌋ ≤ (w:ℤ) := by
      have h2 := Int.floor_le_floor hrdw
      rwa [Int.floor_intCast] at h2
    have hlow : ⌊f * (w:ℚ)⌋ ≤ ⌊roundDouble (f * (w:ℚ))⌋ := by
      have h2 : ((⌊f * (w:ℚ)⌋ : ℤ) : ℚ) ≤ roundDouble (f * (w:ℚ)) :=
        roundDouble_ge_intCast hpos (Int.floor_le _) he52
      exact Int.le_floor.mpr h2
    have hhigh : ⌊roundDouble (f * (w:ℚ))⌋ ≤ ⌊f * (w:ℚ)⌋ + 1 := by
      have h2 : roundDouble (f * (w:ℚ)) ≤ ((⌊f * (w:ℚ)⌋ + 1 : ℤ) : ℚ) := by
        apply roundDouble_le_intCast hpos ?_ he52
        push_cast
        linarith [Int.lt_floor_add_one (f * (w:ℚ))]
      have h3 := Int.floor_le_floor h2
      rwa [Int.floor_intCast] at h3
    have hfq0 : 0 ≤ ⌊f * (w:ℚ)⌋ := Int.floor_nonneg.mpr hq0
    refine ⟨?_, ?_, ?_, ?_, ?_⟩ <;>
      simp [barParser, pyRepeatChar, hfl, String.length, String.data_append,
        List.count_append, List.count_replicate] <;>
      omega

/-- Witness for the amended C5 at fraction 1/2 and width 46. -/
theorem c5_bar_float_witness :
    (0:ℚ) ≤ 1/2 ∧ (1/2:ℚ) ≤ 1 ∧ (0:ℕ) < 46 ∧ (46:ℕ) ≤ 2 ^ 52 ∧
    ((barParser (1/2) 46).length = 46 ∧
     (barParser (1/2) 46).data.count '█' = (pyInt (floatMul (1/2) ((46:ℕ):ℚ))).toNat ∧
     (barParser (1/2) 46).data.count '░' = 46 - (pyInt (floatMul (1/2) ((46:ℕ):ℚ))).toNat ∧
     (⌊(1/2 : ℚ) * ((46:ℕ):ℚ)⌋).toNat ≤ (pyInt (floatMul (1/2) ((46:ℕ):ℚ))).toNat ∧
     (pyInt (floatMul (1/2) ((46:ℕ):ℚ))).toNat ≤ (⌊(1/2 : ℚ) * ((46:ℕ):ℚ)⌋).toNat + 1) :=
  ⟨by norm_num, by norm_num, by norm_num, by norm_num,
    c5_bar_float (1/2) 46 (by norm_num) (by norm_num) (by norm_num) (by norm_num)⟩
